import Mathlib

/-!
Verification of the feed field-shaping logic of the `feedparser` sensor
(`custom_components/feedparser/sensor.py`).

The embedding models the Python values flowing through the shaping routine
as `FValue` (strings, ints, booleans, `None`, lists, dicts).  Python dicts
are association lists in insertion order with pairwise-distinct keys (a
Python dict can hold a key only once); `dget` is `dict.get`, returning
`none` when the key is absent.  Code that can raise an exception is
modelled in `Except Unit`: `.error ()` means the Python code raises at that
point and the exception propagates to the caller.  Python floats are not
distinguished from ints (`FValue.vint` stands for any numeric scalar);
nothing proved here depends on float arithmetic.
-/

set_option autoImplicit false

namespace FeedParser

/-- A Python value as it occurs inside a parsed feed structure. -/
inductive FValue where
  | vnone : FValue
  | vbool : Bool → FValue
  | vint : Int → FValue
  | vstr : String → FValue
  | vlist : List FValue → FValue
  | vdict : List (String × FValue) → FValue

/-- Python truthiness of an `FValue` (`bool(v)`). -/
def truthy : FValue → Bool
  | .vnone => false
  | .vbool b => b
  | .vint n => n != 0
  | .vstr s => s != ""
  | .vlist l => !l.isEmpty
  | .vdict d => !d.isEmpty

/-- `d.get(k)` on a Python dict: value of the first (only) binding of `k`,
`none` when the key is absent. -/
def dget (d : List (String × FValue)) (k : String) : Option FValue :=
  match d with
  | [] => none
  | (k2, v) :: rest => if k2 = k then some v else dget rest k

/-- `d.get(k)` where an absent key yields Python `None`. -/
def dgetD (d : List (String × FValue)) (k : String) : FValue :=
  (dget d k).getD .vnone

/-- `k in d` on a Python dict. -/
def hasKey (d : List (String × FValue)) (k : String) : Bool :=
  (dget d k).isSome

/-- `isinstance(value, (str, int, float, bool))`: the scalar retention test
of the shaping pass (floats are folded into `vint`, see the header note). -/
def isScalar : FValue → Bool
  | .vbool _ => true
  | .vint _ => true
  | .vstr _ => true
  | _ => false

/-- Python `v == s` for a string literal `s`: true only when `v` is that
very string (values of other types never equal a `str`). -/
def isStrEq (v : FValue) (s : String) : Bool :=
  match v with
  | .vstr s2 => s2 == s
  | _ => false

/-- Python `a or b`. -/
def pyOr (a b : FValue) : FValue :=
  if truthy a then a else b

/-- `s.startswith(p)` (structurally recursive so that concrete instances
evaluate definitionally). -/
def strStartsWith (s p : String) : Bool :=
  p.data.isPrefixOf s.data

/-- `s.endswith(p)`. -/
def strEndsWith (s p : String) : Bool :=
  p.data.reverse.isPrefixOf s.data.reverse

/-- `(v or "").startswith(p)`: raises (`.error`) when `v` is truthy but not
a string, since `.startswith` is then called on a non-string. -/
def pyStartsWith (v : FValue) (p : String) : Except Unit Bool :=
  match pyOr v (.vstr "") with
  | .vstr s => .ok (strStartsWith s p)
  | _ => .error ()

/-- Dict assignment `d[k] = v`: replaces the value in place when the key is
present, appends the binding otherwise (Python insertion order). -/
def setKey : List (String × FValue) → String → FValue → List (String × FValue)
  | [], k, v => [(k, v)]
  | (k2, v2) :: rest, k, v =>
    if k2 = k then (k2, v) :: rest else (k2, v2) :: setKey rest k v

/-!
## The fixed image regular expression

`const.py` line 19: `IMAGE_REGEX = r"<img.+?src=\"(.+?)\".+?>"`, used with
`re.S` in `_process_image`'s `findall` (so `.` matches every character,
newlines included) and without flags in the `re.sub` call.  The
pattern is literal anchors `<img`, `src="`, `"`, `>` joined by three lazy
`.+?` gaps, each of which must consume at least one character.  A match at
a position therefore chooses the lexicographically least gap lengths
`(g1, c, g2)` (each ≥ 1) making all anchors fit, `c` being the capture.
`re.findall` / `re.sub` scan positions left to right and resume after the
end of each match.
-/

/-- The literal `src="` anchor of the pattern. -/
def srcAnchor : List Char := ['s', 'r', 'c', '=', '"']

/-- The literal `<img` prefix of the pattern. -/
def imgAnchor : List Char := ['<', 'i', 'm', 'g']

/-- `.+?>` after the closing quote: consume one character, then everything
up to and including the first `>`.  Returns the rest after the match. -/
def tailClose (cs : List Char) : Option (List Char) :=
  match cs with
  | [] => none
  | _ :: rest => dropThroughGt rest
where
  /-- Drop through the first `>` of the list, failing when there is none. -/
  dropThroughGt : List Char → Option (List Char)
    | [] => none
    | c :: rest => if c = '>' then some rest else dropThroughGt rest

/-- `(.+?)".+?>`: scan for the closing quote of the capture group (capture
length ≥ 1, shortest first), backtracking a failed quote into the capture.
`acc` is the reversed capture consumed so far.  Returns the capture and the
rest after the whole match. -/
def capScan : List Char → List Char → Option (List Char × List Char)
  | _, [] => none
  | [], c :: rest => capScan [c] rest
  | a :: as, c :: rest =>
    if c = '"' then
      match tailClose rest with
      | some after => some ((a :: as).reverse, after)
      | none => capScan (c :: a :: as) rest
    else capScan (c :: a :: as) rest

/-- `.+?src="(.+?)".+?>` with the first gap having already consumed its
mandatory character: try the `src="` anchor at each successive position. -/
def anchorScan : List Char → Option (List Char × List Char)
  | [] => none
  | c :: rest =>
    if (c :: rest).take 5 = srcAnchor then
      match capScan [] ((c :: rest).drop 5) with
      | some r => some r
      | none => anchorScan rest
    else anchorScan rest

/-- Match the whole pattern at the head of `cs`; on success return the
capture group and the rest of the input after the match. -/
def matchImgAt (cs : List Char) : Option (List Char × List Char) :=
  if cs.take 4 = imgAnchor then
    match cs.drop 4 with
    | [] => none
    | _ :: rest => anchorScan rest
  else none

/-- Scanning loop of `re.findall(IMAGE_REGEX, s, re.S)`.  Every step
consumes at least one character, so fuel `cs.length` never runs out. -/
def imgFindAux : Nat → List Char → List (List Char)
  | 0, _ => []
  | _, [] => []
  | fuel + 1, c :: rest =>
    match matchImgAt (c :: rest) with
    | some (cap, after) => cap :: imgFindAux fuel after
    | none => imgFindAux fuel rest

/-- `re.findall(IMAGE_REGEX, s, re.S)`: the list of captured URLs. -/
def imgFindall (s : String) : List String :=
  (imgFindAux s.data.length s.data).map (fun cs => String.mk cs)

/-- Scanning loop of `re.sub(IMAGE_REGEX, "", seg)` on a newline-free
segment. -/
def imgSubAux : Nat → List Char → List Char
  | 0, cs => cs
  | _, [] => []
  | fuel + 1, c :: rest =>
    match matchImgAt (c :: rest) with
    | some (_, after) => imgSubAux fuel after
    | none => c :: imgSubAux fuel rest

/-- Split at every newline (the separators are not kept). -/
def splitNl : List Char → List (List Char)
  | [] => [[]]
  | c :: rest =>
    let r := splitNl rest
    if c = '\n' then [] :: r
    else
      match r with
      | [] => [[c]]
      | seg :: segs => (c :: seg) :: segs

/-- Rejoin segments with newlines. -/
def joinNl : List (List Char) → List Char
  | [] => []
  | [seg] => seg
  | seg :: rest => seg ++ '\n' :: joinNl rest

/-- `re.sub(IMAGE_REGEX, "", s)`: the source calls `re.sub` *without*
`re.S`, so `.` does not match newlines there and no match spans a
newline; every anchor is newline-free, so matching segment-wise between
newlines is exact. -/
def imgSub (s : String) : String :=
  String.mk (joinNl ((splitNl s.data).map (fun seg => imgSubAux seg.length seg)))

/-!
## Datetimes and `_parse_date`

`PyDt` models a `datetime`: a wall-clock instant (seconds, as displayed)
plus optional timezone info (UTC offset in seconds and the `tzname()`
result, `none` standing for Python `None`).  The two external date parsers
(`email.utils.parsedate_to_datetime` and `dateutil.parser.parse`), the
clock `dt.utcnow()`, the host's local zone, and `strftime` are opaque
third-party services, supplied as the `Ext` record; a parser returning
`none` models it raising one of the exception types the source catches
(`ValueError`/`TypeError` for the RFC parser, `ParserError`/`TypeError`
for dateutil).  Passing a non-string to either parser raises `TypeError`,
which both `except` clauses catch, so non-string input falls through to
the current-time fallback.
-/

/-- Timezone info attached to a datetime: UTC offset in seconds and the
`tzname()` value (`none` for Python `None`). -/
structure Tz where
  offset : Int
  name : Option String
deriving DecidableEq, Repr

/-- A Python `datetime`: wall-clock seconds plus optional timezone info. -/
structure PyDt where
  wall : Int
  tz : Option Tz
deriving DecidableEq, Repr

/-- The external services `_parse_date` and the shaping pass consume. -/
structure Ext where
  rfc : String → Option PyDt
  flex : String → Option PyDt
  now : PyDt
  localOffset : Int
  localName : String
  strftime : PyDt → String → String

/-- `tzname()` of `timezone(timedelta(seconds = off))`: `"UTC"` for a zero
offset, otherwise `"UTC±HH:MM"`.  Only its non-emptiness matters here. -/
def offsetName (off : Int) : String :=
  if off = 0 then "UTC"
  else
    let sign := if off > 0 then "+" else "-"
    let mins := off.natAbs / 60
    "UTC" ++ sign ++ pad2 (mins / 60) ++ ":" ++ pad2 (mins % 60)
where
  /-- Two-digit zero-padded decimal. -/
  pad2 (n : Nat) : String := if n < 10 then "0" ++ toString n else toString n

/-- `not parsed_time.tzname()`: the name is Python-falsy. -/
def nameFalsy (t : Tz) : Bool :=
  match t.name with
  | none => true
  | some s => s == ""

/-- `homeassistant.util.dt.as_utc`: shift the wall clock by the UTC offset
(a naive datetime is interpreted in the host's default zone). -/
def dt_as_utc (localOff : Int) (p : PyDt) : PyDt :=
  let off := match p.tz with | some t => t.offset | none => localOff
  { wall := p.wall - off, tz := some { offset := 0, name := some "UTC" } }

/-- `homeassistant.util.dt.as_local`: convert to the host's local zone. -/
def dt_as_local (localOff : Int) (localName : String) (p : PyDt) : PyDt :=
  let off := match p.tz with | some t => t.offset | none => localOff
  { wall := p.wall - off + localOff,
    tz := some { offset := localOff, name := some localName } }

/-- `FeedParserSensor._parse_date` (sensor.py lines 324-366): RFC-822
parsing first, then dateutil, then `dt.utcnow()`; a result without tzinfo
is stamped UTC; a tzinfo without a name gets a fixed-offset zone built
from its UTC offset; finally the value is converted to local time or UTC
according to the local-time flag.  Total: every failure of the external
parsers is caught by the source's `except` clauses. -/
def parse_date (ext : Ext) (local_time : Bool) (v : FValue) : PyDt :=
  let p :=
    match v with
    | .vstr s =>
      match ext.rfc s with
      | some t => t
      | none =>
        match ext.flex s with
        | some t => t
        | none => ext.now
    | _ => ext.now
  let p1 :=
    match p.tz with
    | none => { p with tz := some { offset := 0, name := some "UTC" } }
    | some _ => p
  let p2 :=
    match p1.tz with
    | some t =>
      if nameFalsy t then
        { p1 with tz := some { offset := t.offset, name := some (offsetName t.offset) } }
      else p1
    | none => p1
  if local_time then dt_as_local ext.localOffset ext.localName p2
  else dt_as_utc ext.localOffset p2

/-!
## Sensor configuration and the shaping pass
-/

/-- The per-instance configuration the shaping routine reads
(`FeedParserSensor.__init__`). -/
structure Config where
  inclusions : List String
  exclusions : List String
  show_topn : Nat
  remove_summary_image : Bool
  date_format : String
  local_time : Bool

/-- Executable contiguous-sublist test (`pat` occurs inside the list). -/
def listHasInfix (pat : List Char) : List Char → Bool
  | [] => pat.isEmpty
  | c :: rest => pat.isPrefixOf (c :: rest) || listHasInfix pat rest

/-- `"parsed" in key`. -/
def containsParsed (k : String) : Bool :=
  listHasInfix "parsed".data k.data

/-- The skip condition of the generic key pass (sensor.py lines 249-255):
a key is dropped when inclusions is non-empty and misses it, or it
contains `"parsed"`, or it is detail-suffixed, or it is excluded. -/
def dropKey (cfg : Config) (k : String) : Bool :=
  (!cfg.inclusions.isEmpty && !cfg.inclusions.contains k)
  || containsParsed k
  || strEndsWith k "_detail" || k == "detail"
  || cfg.exclusions.contains k

/-- The fixed date-bearing field names. -/
def dateKeys : List String := ["published", "updated", "created", "expired"]

/-- `self._parse_date(value).strftime(self._date_format)`. -/
def fmtDate (ext : Ext) (cfg : Config) (v : FValue) : FValue :=
  .vstr (ext.strftime (parse_date ext cfg.local_time v) cfg.date_format)

/-- The generic per-key pass of `_generate_sensor_entry` (lines 248-262):
filter keys, reformat date fields, pull `href` out of a kept `image`
structure (raising when that value is not a mapping), keep other scalar
values, drop structured values silently. -/
def genEntryPass (cfg : Config) (ext : Ext) :
    List (String × FValue) → Except Unit (List (String × FValue))
  | [] => .ok []
  | (k, v) :: rest =>
    if dropKey cfg k then genEntryPass cfg ext rest
    else if dateKeys.contains k then
      (genEntryPass cfg ext rest).map (fun r => (k, fmtDate ext cfg v) :: r)
    else if k = "image" then
      match v with
      | .vdict d => (genEntryPass cfg ext rest).map (fun r => ("image", dgetD d "href") :: r)
      | _ => .error ()
    else if isScalar v then
      (genEntryPass cfg ext rest).map (fun r => (k, v) :: r)
    else genEntryPass cfg ext rest

/-!
## The media probes (`_process_image`, `_process_audio`, `_process_link`)
-/

/-- One `media_content` item of the image probe: skip on a falsy `url`;
match on `medium == "image"` or a type starting with `"image/"`
(short-circuit order of the source's condition); raise on a non-mapping
item. -/
def mcImageItem (item : FValue) : Except Unit (Option FValue) :=
  match item with
  | .vdict d =>
    let url := dgetD d "url"
    if !truthy url then .ok none
    else if isStrEq (dgetD d "medium") "image" then .ok (some url)
    else
      match pyStartsWith (dgetD d "type") "image/" with
      | .error u => .error u
      | .ok b => if b then .ok (some url) else .ok none
  | _ => .error ()

/-- One `media_thumbnail` item: match on a truthy `url`. -/
def thumbItem (item : FValue) : Except Unit (Option FValue) :=
  match item with
  | .vdict d => if truthy (dgetD d "url") then .ok (some (dgetD d "url")) else .ok none
  | _ => .error ()

/-- One `enclosures` item of the image probe: `href` falling back to
`url`, matched when its type starts with `"image/"`. -/
def encImageItem (item : FValue) : Except Unit (Option FValue) :=
  match item with
  | .vdict d =>
    let url := pyOr (dgetD d "href") (dgetD d "url")
    if !truthy url then .ok none
    else
      match pyStartsWith (dgetD d "type") "image/" with
      | .error u => .error u
      | .ok b => if b then .ok (some url) else .ok none
  | _ => .error ()

/-- One `media_content` item of the audio probe. -/
def mcAudioItem (item : FValue) : Except Unit (Option FValue) :=
  match item with
  | .vdict d =>
    let url := dgetD d "url"
    if !truthy url then .ok none
    else
      match pyStartsWith (dgetD d "type") "audio/" with
      | .error u => .error u
      | .ok b => if b then .ok (some url) else .ok none
  | _ => .error ()

/-- One `enclosures` item of the audio probe. -/
def encAudioItem (item : FValue) : Except Unit (Option FValue) :=
  match item with
  | .vdict d =>
    let url := pyOr (dgetD d "href") (dgetD d "url")
    if !truthy url then .ok none
    else
      match pyStartsWith (dgetD d "type") "audio/" with
      | .error u => .error u
      | .ok b => if b then .ok (some url) else .ok none
  | _ => .error ()

/-- `for item in items: ...` — first item the check accepts, propagating a
raising check. -/
def scanItems (f : FValue → Except Unit (Option FValue)) :
    List FValue → Except Unit (Option FValue)
  | [] => .ok none
  | item :: rest =>
    match f item with
    | .error u => .error u
    | .ok (some u) => .ok (some u)
    | .ok none => scanItems f rest

/-- `if feed_entry.get(key): for item in feed_entry[key]: ...` — skip the
probe on a falsy value; iterate a list; a truthy non-list reaches a
raising operation (`.get` on a string key, or iteration of a
non-iterable) on its first element. -/
def iterItems (f : FValue → Except Unit (Option FValue)) (v : FValue) :
    Except Unit (Option FValue) :=
  if !truthy v then .ok none
  else
    match v with
    | .vlist l => scanItems f l
    | _ => .error ()

/-- Chain two probes: the second one only runs (and only contributes its
errors) when the first returns no result. -/
def orProbe (a b : Except Unit (Option FValue)) : Except Unit (Option FValue) :=
  match a with
  | .error u => .error u
  | .ok (some u) => .ok (some u)
  | .ok none => b

/-- The summary probe: when a `summary` key is present, the first capture
of the image regex (raising when the summary is not a string). -/
def summaryImage (e : List (String × FValue)) : Except Unit (Option FValue) :=
  match dget e "summary" with
  | none => .ok none
  | some (.vstr s) =>
    match imgFindall s with
    | [] => .ok none
    | u :: _ => .ok (some (.vstr u))
  | some _ => .error ()

/-- `FeedParserSensor._process_image` (lines 368-401): media-content, then
media-thumbnail, then enclosures, then the summary regex; `vnone` models
the `return None` when no probe succeeds. -/
def process_image (e : List (String × FValue)) : Except Unit FValue :=
  match orProbe (iterItems mcImageItem (dgetD e "media_content"))
      (orProbe (iterItems thumbItem (dgetD e "media_thumbnail"))
        (orProbe (iterItems encImageItem (dgetD e "enclosures"))
          (summaryImage e))) with
  | .error u => .error u
  | .ok (some u) => .ok u
  | .ok none => .ok .vnone

/-- `FeedParserSensor._process_audio` (lines 403-422). -/
def process_audio (e : List (String × FValue)) : Except Unit FValue :=
  match orProbe (iterItems mcAudioItem (dgetD e "media_content"))
      (iterItems encAudioItem (dgetD e "enclosures")) with
  | .error u => .error u
  | .ok (some u) => .ok u
  | .ok none => .ok .vnone

/-- `FeedParserSensor._process_link` (lines 424-434): with a `links` key
present, `feed_entry["links"][0]["href"]` — raising unless the value is a
non-empty list whose first element is a mapping holding `href`; with the
key absent, the empty string. -/
def process_link (e : List (String × FValue)) : Except Unit FValue :=
  match dget e "links" with
  | none => .ok (.vstr "")
  | some (.vlist (first :: _)) =>
    match first with
    | .vdict d =>
      match dget d "href" with
      | some v => .ok v
      | none => .error ()
    | _ => .error ()
  | some _ => .error ()

/-!
## Entry assembly, channel shaping, and `update`
-/

/-- `if v: d[k] = v` — append the binding only for a truthy value. -/
def addIfTruthy (base : List (String × FValue)) (k : String) (v : FValue) :
    List (String × FValue) :=
  if truthy v then base ++ [(k, v)] else base

/-- The post-pass image derivation of `_generate_sensor_entry` (lines
264-269): probe only when `image` is neither excluded nor already
present, and keep a truthy result. -/
def stepImage (cfg : Config) (e base : List (String × FValue)) :
    Except Unit (List (String × FValue)) :=
  if !cfg.exclusions.contains "image" && !hasKey base "image" then
    match process_image e with
    | .error u => .error u
    | .ok img => .ok (addIfTruthy base "image" img)
  else .ok base

/-- The post-pass audio derivation (lines 270-275). -/
def stepAudio (cfg : Config) (e base : List (String × FValue)) :
    Except Unit (List (String × FValue)) :=
  if !cfg.exclusions.contains "audio" && !hasKey base "audio" then
    match process_audio e with
    | .error u => .error u
    | .ok au => .ok (addIfTruthy base "audio" au)
  else .ok base

/-- The post-pass link derivation (lines 276-281). -/
def stepLink (cfg : Config) (e base : List (String × FValue)) :
    Except Unit (List (String × FValue)) :=
  if !cfg.exclusions.contains "link" && !hasKey base "link" then
    match process_link e with
    | .error u => .error u
    | .ok pl => .ok (addIfTruthy base "link" pl)
  else .ok base

/-- The summary-image removal step (lines 282-287): with the flag set and
a surviving `summary` key, replace its value by the `re.sub` result
(raising when that value is not a string). -/
def stepSummary (cfg : Config) (base : List (String × FValue)) :
    Except Unit (List (String × FValue)) :=
  if cfg.remove_summary_image && hasKey base "summary" then
    match dget base "summary" with
    | some (.vstr s) => .ok (setKey base "summary" (.vstr (imgSub s)))
    | _ => .error ()
  else .ok base

/-- `FeedParserSensor._generate_sensor_entry` (lines 242-289): the generic
key pass followed by the image, audio, link derivations and the
summary-image removal. -/
def genEntry (cfg : Config) (ext : Ext) (e : List (String × FValue)) :
    Except Unit (List (String × FValue)) :=
  match genEntryPass cfg ext e with
  | .error u => .error u
  | .ok b0 =>
    match stepImage cfg e b0 with
    | .error u => .error u
    | .ok b1 =>
      match stepAudio cfg e b1 with
      | .error u => .error u
      | .ok b2 =>
        match stepLink cfg e b2 with
        | .error u => .error u
        | .ok b3 => stepSummary cfg b3

/-- The generic per-key pass of `_generate_channel_info` (lines 297-310):
as the entry pass but with `image` always skipped and without the
`href`-extraction branch; it cannot raise. -/
def channelPass (cfg : Config) (ext : Ext) :
    List (String × FValue) → List (String × FValue)
  | [] => []
  | (k, v) :: rest =>
    if dropKey cfg k || k == "image" then channelPass cfg ext rest
    else if dateKeys.contains k then (k, fmtDate ext cfg v) :: channelPass cfg ext rest
    else if isScalar v then (k, v) :: channelPass cfg ext rest
    else channelPass cfg ext rest

/-- `FeedParserSensor._generate_channel_info` (lines 291-322): the channel
pass, then — unless `image` is excluded — a channel image derived from the
image structure's `href`, else its `url`, else the feed's `logo`, added
only when truthy.  `feed_info.get("image", {})` defaults to an empty
mapping, and `.get` on a non-mapping value raises. -/
def genChannel (cfg : Config) (ext : Ext) (f : List (String × FValue)) :
    Except Unit (List (String × FValue)) :=
  let base := channelPass cfg ext f
  if !cfg.exclusions.contains "image" then
    match (dget f "image").getD (.vdict []) with
    | .vdict d =>
      let u0 := pyOr (dgetD d "href") (dgetD d "url")
      let u1 := if !truthy u0 && truthy (dgetD f "logo") then dgetD f "logo" else u0
      .ok (if truthy u1 then base ++ [("image", u1)] else base)
    | _ => .error ()
  else .ok base

/-- The result of `feedparser.parse`: the channel mapping and the entry
sequence. -/
structure FetchResult where
  feed : List (String × FValue)
  entries : List (List (String × FValue))

/-- The mutable snapshot the sensor entity holds: `_channel`, `_entries`
and `_attr_native_value` (`none` = Python `None`/unset). -/
structure SensorState where
  channel : List (String × FValue)
  entries : List (List (String × FValue))
  native_value : Option Nat

/-- Outcome of one `update` call: normal return, or an exception
propagating with the object fields as they stood at that point. -/
inductive UpdateResult where
  | ok (st : SensorState)
  | raised (st : SensorState)

/-- `FeedParserSensor._generate_entries` applied to the already-sliced
list: shape each entry in order, propagating a raising entry. -/
def genEntries (cfg : Config) (ext : Ext) :
    List (List (String × FValue)) → Except Unit (List (List (String × FValue)))
  | [] => .ok []
  | e :: rest =>
    match genEntry cfg ext e with
    | .error u => .error u
    | .ok r =>
      match genEntries cfg ext rest with
      | .error u => .error u
      | .ok rs => .ok (r :: rs)

/-- `FeedParserSensor.update` (lines 176-229).  `fetch = none` models the
HTTP fetch raising (connection error or `raise_for_status`), which
happens before any field of the sensor is touched.  On a parse result the
snapshot is cleared, an empty channel mapping short-circuits with state
`None`, an empty entry list short-circuits with state `0`, and otherwise
the state becomes `show_topn` capped by the entry count and the entries
list is rebuilt from the first state-many upstream entries. -/
def update (cfg : Config) (ext : Ext) (st : SensorState)
    (fetch : Option FetchResult) : UpdateResult :=
  match fetch with
  | none => .raised st
  | some pf =>
    let st1 : SensorState := { st with channel := [], entries := [] }
    if pf.feed.isEmpty then .ok { st1 with native_value := none }
    else
      match genChannel cfg ext pf.feed with
      | .error _ => .raised st1
      | .ok ch =>
        let st2 := { st1 with channel := ch }
        if pf.entries.isEmpty then .ok { st2 with native_value := some 0 }
        else
          let nv := if pf.entries.length > cfg.show_topn then cfg.show_topn
            else pf.entries.length
          let st3 := { st2 with native_value := some nv }
          match genEntries cfg ext (pf.entries.take nv) with
          | .error _ => .raised st3
          | .ok es => .ok { st3 with entries := es }

/-!
## Concrete fixtures for witnesses and counterexamples
-/

/-- A concrete bundle of the external services, for concrete runs: both
date parsers fail, the clock reads 1000 s (aware UTC, as `dt.utcnow()`
returns), the host zone is one hour east. -/
def extFixed : Ext :=
  { rfc := fun _ => none, flex := fun _ => none,
    now := { wall := 1000, tz := some { offset := 0, name := some "UTC" } },
    localOffset := 3600, localName := "Local",
    strftime := fun _ f => f }

/-- The platform-schema default configuration: empty inclusion and
exclusion lists, top-N 9999, no summary-image removal, UTC output. -/
def cfgDefault : Config :=
  { inclusions := [], exclusions := [], show_topn := 9999,
    remove_summary_image := false, date_format := "%a, %b %d %I:%M %p",
    local_time := false }

/-!
## Association-list lemmas
-/

theorem dget_append (l1 l2 : List (String × FValue)) (k : String) :
    dget (l1 ++ l2) k =
      match dget l1 k with
      | some v => some v
      | none => dget l2 k := by
  induction l1 with
  | nil => simp [dget]
  | cons kv rest ih =>
    obtain ⟨k2, v⟩ := kv
    by_cases h : k2 = k <;> simp [dget, h, ih]

theorem dget_addIfTruthy_ne (base : List (String × FValue)) (k0 k : String)
    (v : FValue) (h : k ≠ k0) :
    dget (addIfTruthy base k0 v) k = dget base k := by
  unfold addIfTruthy
  split
  · rw [dget_append]
    cases hb : dget base k with
    | some w => rfl
    | none => simp [dget, Ne.symm h]
  · rfl

theorem keys_addIfTruthy (base : List (String × FValue)) (k0 : String)
    (v : FValue) (k : String) (h : k ∈ (addIfTruthy base k0 v).map Prod.fst) :
    k ∈ base.map Prod.fst ∨ k = k0 := by
  unfold addIfTruthy at h
  split at h
  · simp at h
    rcases h with h | h
    · exact Or.inl (by simpa using h)
    · exact Or.inr h
  · exact Or.inl h

theorem keys_setKey_hasKey (l : List (String × FValue)) (k0 : String) (v : FValue)
    (h : hasKey l k0 = true) : (setKey l k0 v).map Prod.fst = l.map Prod.fst := by
  induction l with
  | nil => simp [hasKey, dget] at h
  | cons kv rest ih =>
    obtain ⟨k2, v2⟩ := kv
    by_cases hk : k2 = k0
    · simp [setKey, hk]
    · simp only [hasKey, dget, if_neg hk] at h
      simp [setKey, hk, ih h]

theorem dget_setKey_self (l : List (String × FValue)) (k0 : String) (v : FValue) :
    dget (setKey l k0 v) k0 = some v := by
  induction l with
  | nil => simp [setKey, dget]
  | cons kv rest ih =>
    obtain ⟨k2, v2⟩ := kv
    by_cases hk : k2 = k0 <;> simp [setKey, dget, hk, ih]

theorem dget_setKey_ne (l : List (String × FValue)) (k0 k : String) (v : FValue)
    (h : k ≠ k0) : dget (setKey l k0 v) k = dget l k := by
  induction l with
  | nil => simp [setKey, dget, Ne.symm h]
  | cons kv rest ih =>
    obtain ⟨k2, v2⟩ := kv
    by_cases hk : k2 = k0
    · subst hk
      simp only [setKey, if_pos rfl]
      have hne : ¬k2 = k := fun hh => h (hh ▸ rfl)
      simp [dget, hne]
    · by_cases hk2 : k2 = k <;> simp [setKey, dget, hk, hk2, ih, h]

/-!
## Structural lemmas about the shaping pass and the post-pass steps
-/

theorem genEntryPass_keys (cfg : Config) (ext : Ext) :
    ∀ (e base : List (String × FValue)), genEntryPass cfg ext e = Except.ok base →
      ∀ k, k ∈ base.map Prod.fst → dropKey cfg k = false := by
  intro e
  induction e with
  | nil =>
    intro base h k hk
    simp only [genEntryPass] at h
    cases h
    simp at hk
  | cons kv rest ih =>
    intro base h k hk
    obtain ⟨k0, v0⟩ := kv
    simp only [genEntryPass] at h
    by_cases hdrop : dropKey cfg k0
    · rw [if_pos hdrop] at h
      exact ih base h k hk
    · rw [if_neg hdrop] at h
      by_cases hdate : dateKeys.contains k0
      · rw [if_pos hdate] at h
        cases hrest : genEntryPass cfg ext rest with
        | error u => rw [hrest] at h; exact absurd h (by simp [Except.map])
        | ok r =>
          rw [hrest] at h
          simp only [Except.map] at h
          cases h
          simp at hk
          rcases hk with hk | hk
          · rw [hk]; simpa using hdrop
          · exact ih r hrest k (by simpa using hk)
      · rw [if_neg hdate] at h
        by_cases himg : k0 = "image"
        · rw [if_pos himg] at h
          cases v0 with
          | vdict d =>
            cases hrest : genEntryPass cfg ext rest with
            | error u => rw [hrest] at h; exact absurd h (by simp [Except.map])
            | ok r =>
              rw [hrest] at h
              simp only [Except.map] at h
              cases h
              simp at hk
              rcases hk with hk | hk
              · rw [hk, ← himg]; simpa using hdrop
              · exact ih r hrest k (by simpa using hk)
          | vnone => exact absurd h (by simp)
          | vbool b => exact absurd h (by simp)
          | vint n => exact absurd h (by simp)
          | vstr s => exact absurd h (by simp)
          | vlist l => exact absurd h (by simp)
        · rw [if_neg himg] at h
          by_cases hscal : isScalar v0
          · rw [if_pos hscal] at h
            cases hrest : genEntryPass cfg ext rest with
            | error u => rw [hrest] at h; exact absurd h (by simp [Except.map])
            | ok r =>
              rw [hrest] at h
              simp only [Except.map] at h
              cases h
              simp at hk
              rcases hk with hk | hk
              · rw [hk]; simpa using hdrop
              · exact ih r hrest k (by simpa using hk)
          · rw [if_neg hscal] at h
            exact ih base h k hk

theorem stepImage_keys (cfg : Config) (e base out : List (String × FValue))
    (h : stepImage cfg e base = .ok out) :
    ∀ k, k ∈ out.map Prod.fst →
      k ∈ base.map Prod.fst ∨ (k = "image" ∧ cfg.exclusions.contains "image" = false) := by
  intro k hk
  unfold stepImage at h
  split at h
  · rename_i hcond
    cases hpi : process_image e with
    | error u => rw [hpi] at h; exact absurd h (by simp)
    | ok img =>
      rw [hpi] at h
      cases h
      rcases keys_addIfTruthy base "image" img k hk with hin | heq
      · exact Or.inl hin
      · refine Or.inr ⟨heq, ?_⟩
        simp only [Bool.and_eq_true, Bool.not_eq_eq_eq_not, Bool.not_true] at hcond
        simpa using hcond.1
  · cases h; exact Or.inl hk

theorem stepAudio_keys (cfg : Config) (e base out : List (String × FValue))
    (h : stepAudio cfg e base = .ok out) :
    ∀ k, k ∈ out.map Prod.fst →
      k ∈ base.map Prod.fst ∨ (k = "audio" ∧ cfg.exclusions.contains "audio" = false) := by
  intro k hk
  unfold stepAudio at h
  split at h
  · rename_i hcond
    cases hpa : process_audio e with
    | error u => rw [hpa] at h; exact absurd h (by simp)
    | ok au =>
      rw [hpa] at h
      cases h
      rcases keys_addIfTruthy base "audio" au k hk with hin | heq
      · exact Or.inl hin
      · refine Or.inr ⟨heq, ?_⟩
        simp only [Bool.and_eq_true, Bool.not_eq_eq_eq_not, Bool.not_true] at hcond
        simpa using hcond.1
  · cases h; exact Or.inl hk

theorem stepLink_keys (cfg : Config) (e base out : List (String × FValue))
    (h : stepLink cfg e base = .ok out) :
    ∀ k, k ∈ out.map Prod.fst →
      k ∈ base.map Prod.fst ∨ (k = "link" ∧ cfg.exclusions.contains "link" = false) := by
  intro k hk
  unfold stepLink at h
  split at h
  · rename_i hcond
    cases hpl : process_link e with
    | error u => rw [hpl] at h; exact absurd h (by simp)
    | ok pl =>
      rw [hpl] at h
      cases h
      rcases keys_addIfTruthy base "link" pl k hk with hin | heq
      · exact Or.inl hin
      · refine Or.inr ⟨heq, ?_⟩
        simp only [Bool.and_eq_true, Bool.not_eq_eq_eq_not, Bool.not_true] at hcond
        simpa using hcond.1
  · cases h; exact Or.inl hk

theorem stepSummary_keys (cfg : Config) (base out : List (String × FValue))
    (h : stepSummary cfg base = .ok out) : out.map Prod.fst = base.map Prod.fst := by
  unfold stepSummary at h
  split at h
  · rename_i hcond
    simp only [Bool.and_eq_true] at hcond
    split at h
    · cases h
      exact keys_setKey_hasKey base "summary" _ hcond.2
    · exact absurd h (by simp)
  · cases h; rfl

theorem genEntry_ok_chain (cfg : Config) (ext : Ext) (e rec : List (String × FValue))
    (h : genEntry cfg ext e = .ok rec) :
    ∃ b0 b1 b2 b3, genEntryPass cfg ext e = .ok b0 ∧ stepImage cfg e b0 = .ok b1 ∧
      stepAudio cfg e b1 = .ok b2 ∧ stepLink cfg e b2 = .ok b3 ∧
      stepSummary cfg b3 = .ok rec := by
  unfold genEntry at h
  split at h
  · exact absurd h (by simp)
  · rename_i b0 h0
    split at h
    · exact absurd h (by simp)
    · rename_i b1 h1
      split at h
      · exact absurd h (by simp)
      · rename_i b2 h2
        split at h
        · exact absurd h (by simp)
        · rename_i b3 h3
          exact ⟨b0, b1, b2, b3, h0, h1, h2, h3, h⟩

/-!
## Claim C1 — the key filter of entry records
-/

/-- The key-admissibility predicate the specification asserts for every key
of a produced entry record (spec §8, claim C1): the key does not contain
`"parsed"`, is not detail-suffixed (nor the bare `"detail"`), is not in the
exclusion set, and the inclusion set is empty or holds it.  Written from
the claim's words, to be compared with what the code produces. -/
def specKeyAdmissible (cfg : Config) (k : String) : Bool :=
  !containsParsed k && !strEndsWith k "_detail" && k != "detail"
  && !cfg.exclusions.contains k
  && (cfg.inclusions.isEmpty || cfg.inclusions.contains k)

theorem not_dropKey_parts (cfg : Config) (k : String) (h : dropKey cfg k = false) :
    cfg.exclusions.contains k = false ∧ specKeyAdmissible cfg k = true := by
  unfold dropKey at h
  simp only [Bool.or_eq_false_iff, Bool.and_eq_false_iff] at h
  obtain ⟨⟨⟨⟨hincl, hpar⟩, hdet⟩, hbare⟩, hexc⟩ := h
  refine ⟨hexc, ?_⟩
  unfold specKeyAdmissible
  simp only [Bool.and_eq_true, Bool.not_eq_true', Bool.or_eq_true]
  refine ⟨⟨⟨⟨hpar, hdet⟩, ?_⟩, hexc⟩, ?_⟩
  · simpa using hbare
  · rcases hincl with hincl | hincl
    · exact Or.inl (by simpa using hincl)
    · exact Or.inr (by simpa using hincl)

/-- A configuration whose inclusion list holds only `title`. -/
def cfgOnlyTitle : Config := { cfgDefault with inclusions := ["title"] }

/-- An entry whose only field is a one-element links sequence. -/
def entryLinksOnly : List (String × FValue) :=
  [("links", .vlist [.vdict [("href", .vstr "h")]])]

/-- Claim C1 is false as stated: with inclusions `["title"]` (non-empty)
and empty exclusions, an entry whose only field is a links sequence
produces the record `{"link": "h"}` — the key `link` is present although
the inclusion set is non-empty and does not contain it, because the
post-pass link derivation consults only the exclusion set. -/
theorem C1_counterexample :
    genEntry cfgOnlyTitle extFixed entryLinksOnly = .ok [("link", FValue.vstr "h")] ∧
    specKeyAdmissible cfgOnlyTitle "link" = false :=
  ⟨rfl, rfl⟩

/-- Claim C1 (amended): every key of a produced entry record is outside the
exclusion set (exclusion always wins), and is either admissible under the
claimed filter — no `"parsed"` substring, no detail suffix, inclusions
empty or holding it — or is one of the derived keys `image`, `audio`,
`link`, which are added without consulting the inclusion list. -/
theorem C1_entry_keys (cfg : Config) (ext : Ext) (e rec : List (String × FValue))
    (h : genEntry cfg ext e = .ok rec) :
    ∀ k, k ∈ rec.map Prod.fst →
      cfg.exclusions.contains k = false ∧
      (specKeyAdmissible cfg k = true ∨ k = "image" ∨ k = "audio" ∨ k = "link") := by
  intro k hk
  obtain ⟨b0, b1, b2, b3, h0, h1, h2, h3, h4⟩ := genEntry_ok_chain cfg ext e rec h
  rw [stepSummary_keys cfg b3 rec h4] at hk
  rcases stepLink_keys cfg e b2 b3 h3 k hk with hk | ⟨hkl, hexc⟩
  · rcases stepAudio_keys cfg e b1 b2 h2 k hk with hk | ⟨hka, hexc⟩
    · rcases stepImage_keys cfg e b0 b1 h1 k hk with hk | ⟨hki, hexc⟩
      · have hdrop := genEntryPass_keys cfg ext e b0 h0 k hk
        obtain ⟨hexc, hadm⟩ := not_dropKey_parts cfg k hdrop
        exact ⟨hexc, Or.inl hadm⟩
      · exact ⟨hki ▸ hexc, Or.inr (Or.inl hki)⟩
    · exact ⟨hka ▸ hexc, Or.inr (Or.inr (Or.inl hka))⟩
  · exact ⟨hkl ▸ hexc, Or.inr (Or.inr (Or.inr hkl))⟩

/-- Witness for C1: a concrete run — the default configuration on the
entry `{"title": "t"}` keeps `title`, which the amended filter admits. -/
theorem C1_entry_keys_witness :
    cfgDefault.exclusions.contains "title" = false ∧
    (specKeyAdmissible cfgDefault "title" = true ∨ "title" = "image" ∨
      "title" = "audio" ∨ "title" = "link") :=
  C1_entry_keys cfgDefault extFixed [("title", FValue.vstr "t")]
    [("title", FValue.vstr "t")] rfl "title" (by simp)

/-!
## Claim C2 — numeric state and entry count after a poll
-/

theorem genEntries_length (cfg : Config) (ext : Ext) :
    ∀ (l : List (List (String × FValue))) es, genEntries cfg ext l = .ok es →
      es.length = l.length := by
  intro l
  induction l with
  | nil =>
    intro es h
    simp only [genEntries] at h
    cases h
    rfl
  | cons e rest ih =>
    intro es h
    simp only [genEntries] at h
    cases hge : genEntry cfg ext e with
    | error u => rw [hge] at h; exact absurd h (by simp)
    | ok r =>
      rw [hge] at h
      cases hgr : genEntries cfg ext rest with
      | error u => rw [hgr] at h; exact absurd h (by simp)
      | ok rs =>
        rw [hgr] at h
        cases h
        simp [ih rs hgr]

/-- A one-field entry and its shaped record (they coincide here). -/
def entryTitle : List (String × FValue) := [("title", .vstr "t")]

/-- An initial sensor snapshot with nothing stored. -/
def stEmpty : SensorState := { channel := [], entries := [], native_value := none }

/-- Claim C2 is false as stated: a parse result with an *empty channel
mapping* but one entry is a successful poll yielding a non-empty entry
list, yet `update` returns early at the channel check — the state becomes
`None` rather than `min(top-N, 1) = 1` and no entry is stored. -/
theorem C2_counterexample :
    update cfgDefault extFixed stEmpty (some { feed := [], entries := [entryTitle] }) =
      .ok { channel := [], entries := [], native_value := none } ∧
    (none : Option Nat) ≠ some (min cfgDefault.show_topn 1) :=
  ⟨rfl, by decide⟩

/-- Claim C2 (amended): after every poll whose fetch succeeds, whose parse
yields non-empty channel metadata *and* a non-empty entry list, and whose
update completes without raising, the numeric state equals
min(top-N, parsed entry count), the stored entries list has exactly that
length, and it is the field-shaped image of the first that-many upstream
entries in upstream order. -/
theorem C2_update_topn (cfg : Config) (ext : Ext) (st st2 : SensorState)
    (pf : FetchResult) (hfeed : pf.feed ≠ []) (hent : pf.entries ≠ [])
    (h : update cfg ext st (some pf) = .ok st2) :
    st2.native_value = some (min cfg.show_topn pf.entries.length) ∧
    st2.entries.length = min cfg.show_topn pf.entries.length ∧
    genEntries cfg ext (pf.entries.take (min cfg.show_topn pf.entries.length)) =
      .ok st2.entries := by
  have hfe : pf.feed.isEmpty = false := by
    cases hx : pf.feed with
    | nil => exact absurd hx hfeed
    | cons a l => rfl
  have hee : pf.entries.isEmpty = false := by
    cases hx : pf.entries with
    | nil => exact absurd hx hent
    | cons a l => rfl
  have hnv : (if pf.entries.length > cfg.show_topn then cfg.show_topn
      else pf.entries.length) = min cfg.show_topn pf.entries.length := by
    split <;> omega
  simp only [update] at h
  rw [hfe] at h
  simp only [Bool.false_eq_true, if_false] at h
  cases hch : genChannel cfg ext pf.feed with
  | error u => rw [hch] at h; exact absurd h (by simp)
  | ok ch =>
    rw [hch] at h
    rw [hee] at h
    simp only [Bool.false_eq_true, if_false] at h
    cases hge : genEntries cfg ext
        (pf.entries.take (if pf.entries.length > cfg.show_topn then cfg.show_topn
          else pf.entries.length)) with
    | error u => rw [hge] at h; exact absurd h (by simp)
    | ok es =>
      rw [hge] at h
      cases h
      rw [hnv] at hge
      have hlen := genEntries_length cfg ext _ es hge
      rw [List.length_take] at hlen
      refine ⟨by simp [hnv], ?_, hge⟩
      simp only [hlen]
      omega

/-- A concrete parse result: one channel field, one entry. -/
def pfOne : FetchResult := { feed := [("title", .vstr "c")], entries := [entryTitle] }

/-- The snapshot `update` produces from `pfOne`. -/
def stOne : SensorState :=
  { channel := [("title", .vstr "c")], entries := [entryTitle], native_value := some 1 }

/-- Witness for C2: the concrete poll `pfOne` under the default
configuration gives state `min(9999, 1) = 1` and one stored entry. -/
theorem C2_update_topn_witness :
    stOne.native_value = some (min cfgDefault.show_topn pfOne.entries.length) ∧
    stOne.entries.length = min cfgDefault.show_topn pfOne.entries.length ∧
    genEntries cfgDefault extFixed
      (pfOne.entries.take (min cfgDefault.show_topn pfOne.entries.length)) =
      .ok stOne.entries :=
  C2_update_topn cfgDefault extFixed stEmpty stOne pfOne (by simp [pfOne])
    (by simp [pfOne]) rfl

/-!
## Claim C6 — atomicity on fetch error
-/

/-- Claim C6: when the HTTP fetch raises (connection error or
`raise_for_status` on a non-success status), the exception propagates out
of `update` before any field of the sensor has been touched —
`UpdateResult.raised st` carries the sensor's fields exactly as they were,
so the channel mapping, the entries list and the numeric state all keep
their previous values. -/
theorem C6_fetch_error_atomic (cfg : Config) (ext : Ext) (st : SensorState) :
    update cfg ext st none = .raised st :=
  rfl

/-!
## Per-key preservation through the post-pass steps
-/

theorem stepImage_dget_ne (cfg : Config) (e base out : List (String × FValue))
    (k : String) (h : stepImage cfg e base = .ok out) (hk : k ≠ "image") :
    dget out k = dget base k := by
  unfold stepImage at h
  split at h
  · cases hpi : process_image e with
    | error u => rw [hpi] at h; exact absurd h (by simp)
    | ok img => rw [hpi] at h; cases h; exact dget_addIfTruthy_ne base "image" k img hk
  · cases h; rfl

theorem stepAudio_dget_ne (cfg : Config) (e base out : List (String × FValue))
    (k : String) (h : stepAudio cfg e base = .ok out) (hk : k ≠ "audio") :
    dget out k = dget base k := by
  unfold stepAudio at h
  split at h
  · cases hpa : process_audio e with
    | error u => rw [hpa] at h; exact absurd h (by simp)
    | ok au => rw [hpa] at h; cases h; exact dget_addIfTruthy_ne base "audio" k au hk
  · cases h; rfl

theorem stepLink_dget_ne (cfg : Config) (e base out : List (String × FValue))
    (k : String) (h : stepLink cfg e base = .ok out) (hk : k ≠ "link") :
    dget out k = dget base k := by
  unfold stepLink at h
  split at h
  · cases hpl : process_link e with
    | error u => rw [hpl] at h; exact absurd h (by simp)
    | ok pl => rw [hpl] at h; cases h; exact dget_addIfTruthy_ne base "link" k pl hk
  · cases h; rfl

theorem stepSummary_dget_ne (cfg : Config) (base out : List (String × FValue))
    (k : String) (h : stepSummary cfg base = .ok out) (hk : k ≠ "summary") :
    dget out k = dget base k := by
  unfold stepSummary at h
  split at h
  · split at h
    · cases h; exact dget_setKey_ne base "summary" k _ hk
    · exact absurd h (by simp)
  · cases h; rfl

/-!
## Claim C8 — zero-entry feeds are not errors
-/

/-- The channel `image` value, when present, is a mapping — feedparser
always renders a channel image element as a dictionary-like object, so
the shaping code's `.get` calls on it do not raise. -/
def imageWellFormed (f : List (String × FValue)) : Bool :=
  match dget f "image" with
  | none => true
  | some (.vdict _) => true
  | some _ => false

/-- The payload of an `ok` channel result (`[]` for an error). -/
def exceptD (x : Except Unit (List (String × FValue))) : List (String × FValue) :=
  match x with
  | .ok v => v
  | .error _ => []

theorem genChannel_ok_of_wf (cfg : Config) (ext : Ext) (f : List (String × FValue))
    (h : imageWellFormed f = true) :
    genChannel cfg ext f = .ok (exceptD (genChannel cfg ext f)) := by
  unfold imageWellFormed at h
  by_cases hexc : "image" ∈ cfg.exclusions
  · simp [genChannel, exceptD, hexc]
  · cases hi : dget f "image" with
    | none => simp [genChannel, exceptD, hexc, hi]
    | some v =>
      rw [hi] at h
      cases v <;> simp_all [genChannel, exceptD, hexc, hi]

/-- Claim C8: a successfully fetched feed that parses to zero entries is
not an error — `update` raises nothing; the state becomes `None` when the
whole channel mapping is empty, else `0`, and the entries attribute stays
empty.  (`imageWellFormed` pins the one assumption the embedding needs:
feedparser renders a channel image as a mapping, so the channel image
derivation's `.get` calls cannot raise.) -/
theorem C8_zero_entries (cfg : Config) (ext : Ext) (st : SensorState) (pf : FetchResult)
    (hent : pf.entries = []) (hwf : imageWellFormed pf.feed = true) :
    (pf.feed = [] →
      update cfg ext st (some pf) =
        .ok { channel := [], entries := [], native_value := none }) ∧
    (pf.feed ≠ [] →
      genChannel cfg ext pf.feed = .ok (exceptD (genChannel cfg ext pf.feed)) ∧
      update cfg ext st (some pf) =
        .ok { channel := exceptD (genChannel cfg ext pf.feed), entries := [],
              native_value := some 0 }) := by
  constructor
  · intro hfe
    simp only [update, hfe, List.isEmpty_nil, if_true]
  · intro hfe
    have hch := genChannel_ok_of_wf cfg ext pf.feed hwf
    refine ⟨hch, ?_⟩
    have hfeB : pf.feed.isEmpty = false := by
      cases hx : pf.feed with
      | nil => exact absurd hx hfe
      | cons a l => rfl
    simp only [update, hfeB, Bool.false_eq_true, if_false]
    rw [hch]
    simp [hent, exceptD]

/-- A zero-entry parse result with one channel field. -/
def pfZero : FetchResult := { feed := [("title", .vstr "c")], entries := [] }

/-- Witness for C8: the concrete zero-entry poll `pfZero` returns normally
with state `0`, the shaped channel, and no entries. -/
theorem C8_zero_entries_witness :
    genChannel cfgDefault extFixed pfZero.feed =
      .ok (exceptD (genChannel cfgDefault extFixed pfZero.feed)) ∧
    update cfgDefault extFixed stEmpty (some pfZero) =
      .ok { channel := exceptD (genChannel cfgDefault extFixed pfZero.feed),
            entries := [], native_value := some 0 } :=
  (C8_zero_entries cfgDefault extFixed stEmpty pfZero rfl rfl).2 (by simp [pfZero])

/-!
## Claim C4 — summary-image removal
-/

/-- The default configuration with the remove-summary-image flag set. -/
def cfgRemove : Config := { cfgDefault with remove_summary_image := true }

/-- Claim C4 is false on its own example: the pattern requires at least one
character between the closing quote of `src="..."` and the `>` (the final
lazy `.+?`), so the minimal tag `<img src="x.png">` is not matched —
`re.sub` leaves the summary unchanged and it still contains `<img`. -/
theorem C4_counterexample :
    genEntry cfgRemove extFixed [("summary", .vstr "<img src=\"x.png\">")] =
      .ok [("summary", .vstr "<img src=\"x.png\">")] ∧
    listHasInfix "<img".data "<img src=\"x.png\">".data = true :=
  ⟨rfl, rfl⟩

/-- Claim C4 (amended): when the remove-summary-image flag is set and a
`summary` key survives the generic pass with value `s`, the produced
record's summary is exactly `re.sub(IMAGE_REGEX, "", s)` — every tag the
regex matches is stripped; however the regex requires a character between
`img` and `src="`, and one between the quoted URL and `>`, so a minimal
`<img src="x.png">` survives while e.g. `<img src="x.png" />` is removed
(second and third conjuncts). -/
theorem C4_summary_strip (cfg : Config) (ext : Ext)
    (e base rec : List (String × FValue)) (s : String)
    (hflag : cfg.remove_summary_image = true)
    (hpass : genEntryPass cfg ext e = .ok base)
    (hsum : dget base "summary" = some (.vstr s))
    (h : genEntry cfg ext e = .ok rec) :
    dget rec "summary" = some (.vstr (imgSub s)) ∧
    genEntry cfgRemove extFixed [("summary", .vstr "<img src=\"x.png\" />")] =
      .ok [("summary", .vstr ""), ("image", .vstr "x.png")] ∧
    listHasInfix "<img".data "".data = false := by
  refine ⟨?_, rfl, rfl⟩
  obtain ⟨b0, b1, b2, b3, h0, h1, h2, h3, h4⟩ := genEntry_ok_chain cfg ext e rec h
  rw [hpass] at h0
  cases h0
  have d3 : dget b3 "summary" = some (.vstr s) := by
    rw [stepLink_dget_ne cfg e b2 b3 "summary" h3 (by decide),
      stepAudio_dget_ne cfg e b1 b2 "summary" h2 (by decide),
      stepImage_dget_ne cfg e base b1 "summary" h1 (by decide)]
    exact hsum
  have hhk : hasKey b3 "summary" = true := by rw [hasKey, d3]; rfl
  unfold stepSummary at h4
  rw [hflag, hhk] at h4
  simp only [Bool.and_self, if_true] at h4
  rw [d3] at h4
  cases h4
  exact dget_setKey_self b3 "summary" _

/-- Witness for C4: a concrete run of the amended statement on the summary
`<img src="q" />`, which the regex does match and strip (the summary
probe, running before the strip, still extracts the image URL). -/
theorem C4_summary_strip_witness :
    dget [("summary", FValue.vstr ""), ("image", FValue.vstr "q")] "summary" =
      some (FValue.vstr (imgSub "<img src=\"q\" />")) ∧
    genEntry cfgRemove extFixed [("summary", .vstr "<img src=\"x.png\" />")] =
      .ok [("summary", .vstr ""), ("image", .vstr "x.png")] ∧
    listHasInfix "<img".data "".data = false :=
  C4_summary_strip cfgRemove extFixed [("summary", .vstr "<img src=\"q\" />")]
    [("summary", .vstr "<img src=\"q\" />")]
    [("summary", .vstr ""), ("image", .vstr "q")] "<img src=\"q\" />"
    rfl rfl rfl rfl

/-!
## Claim C7 — link derivation
-/

/-- Claim C7 is false as stated: link derivation is *not* total.  On an
entry whose `links` key holds an empty list, `feed_entry["links"][0]`
raises `IndexError`, and the whole entry generation propagates it. -/
theorem C7_counterexample :
    process_link [("links", FValue.vlist [])] = .error () ∧
    genEntry cfgDefault extFixed [("links", FValue.vlist [])] = .error () :=
  ⟨rfl, rfl⟩

/-- Claim C7 (amended): with `links` absent the derivation yields the
empty string — which, being falsy, is discarded by the truthiness guard,
so no `link` key is added; with `links` present the derivation succeeds
only when the sequence is non-empty and its first element is a mapping
holding `href`, in which case that href becomes the record's `link` field
when truthy; a present-but-empty `links` sequence raises instead
(see the counterexample). -/
theorem C7_link_derivation (cfg : Config) (ext : Ext)
    (e base rec : List (String × FValue)) (d : List (String × FValue))
    (restL : List FValue) (v : FValue) :
    (dget e "links" = none → process_link e = .ok (.vstr "")) ∧
    (dget e "links" = some (.vlist (.vdict d :: restL)) → dget d "href" = some v →
      process_link e = .ok v) ∧
    (genEntryPass cfg ext e = .ok base → hasKey base "link" = false →
      cfg.exclusions.contains "link" = false → genEntry cfg ext e = .ok rec →
      ((dget e "links" = none → hasKey rec "link" = false) ∧
        (dget e "links" = some (.vlist (.vdict d :: restL)) → dget d "href" = some v →
          truthy v = true → dget rec "link" = some v))) := by
  refine ⟨?_, ?_, ?_⟩
  · intro habs
    unfold process_link
    rw [habs]
  · intro hlk hhref
    unfold process_link
    rw [hlk]
    dsimp only
    rw [hhref]
  · intro hpass hnk hexc h
    obtain ⟨b0, b1, b2, b3, h0, h1, h2, h3, h4⟩ := genEntry_ok_chain cfg ext e rec h
    rw [hpass] at h0
    cases h0
    have d2 : dget b2 "link" = dget base "link" := by
      rw [stepAudio_dget_ne cfg e b1 b2 "link" h2 (by decide),
        stepImage_dget_ne cfg e base b1 "link" h1 (by decide)]
    have hnk2 : hasKey b2 "link" = false := by
      rw [hasKey, d2]
      rw [hasKey] at hnk
      exact hnk
    constructor
    · intro habs
      have hpl : process_link e = .ok (.vstr "") := by unfold process_link; rw [habs]
      unfold stepLink at h3
      rw [hexc, hnk2] at h3
      simp only [Bool.not_false, Bool.and_self, if_true] at h3
      rw [hpl] at h3
      simp only [addIfTruthy, truthy] at h3
      simp only [bne_self_eq_false, Bool.false_eq_true, if_false] at h3
      cases h3
      rw [hasKey, stepSummary_dget_ne cfg b2 rec "link" h4 (by decide), d2]
      rw [hasKey] at hnk
      exact hnk
    · intro hlk hhref htr
      have hpl : process_link e = .ok v := by
        unfold process_link
        rw [hlk]
        dsimp only
        rw [hhref]
      unfold stepLink at h3
      rw [hexc, hnk2] at h3
      simp only [Bool.not_false, Bool.and_self, if_true] at h3
      rw [hpl] at h3
      simp only [addIfTruthy, htr, if_true] at h3
      cases h3
      rw [stepSummary_dget_ne cfg _ rec "link" h4 (by decide)]
      rw [dget_append]
      have hd : dget b2 "link" = none := by
        rw [hasKey] at hnk2
        cases hx : dget b2 "link" with
        | none => rfl
        | some w => rw [hx] at hnk2; exact absurd hnk2 (by simp)
      rw [hd]
      simp [dget]

/-- Witness for C7: the entry whose only field is a one-element links
sequence with href `"h"` gets `link = "h"` in its record. -/
theorem C7_link_derivation_witness :
    dget [("link", FValue.vstr "h")] "link" = some (FValue.vstr "h") :=
  ((C7_link_derivation cfgDefault extFixed entryLinksOnly []
      [("link", FValue.vstr "h")] [("href", FValue.vstr "h")] [] (FValue.vstr "h")).2.2
    rfl rfl rfl rfl).2 rfl rfl rfl

/-!
## Claim C10 — a kept `image` structure without `href` maps to null
-/

theorem genEntryPass_image_vnone (cfg : Config) (ext : Ext) :
    ∀ (pre : List (String × FValue)) (post : List (String × FValue))
      (d : List (String × FValue)) (base : List (String × FValue)),
      hasKey pre "image" = false → dropKey cfg "image" = false →
      dget d "href" = none →
      genEntryPass cfg ext (pre ++ ("image", .vdict d) :: post) = .ok base →
      dget base "image" = some .vnone := by
  intro pre
  induction pre with
  | nil =>
    intro post d base hpre hkeep hhref h
    have hdate : dateKeys.contains "image" = false := by decide
    rw [List.nil_append] at h
    cases hrest : genEntryPass cfg ext post with
    | error u =>
      simp [genEntryPass, hkeep, hdate, hrest, Except.map] at h
    | ok r =>
      simp only [genEntryPass, hkeep, hdate, hrest, Except.map, Bool.false_eq_true,
        if_false, if_true] at h
      simp at h
      rw [← h]
      simp [dget, dgetD, hhref]
  | cons kv pre2 ih =>
    intro post d base hpre hkeep hhref h
    obtain ⟨k0, v0⟩ := kv
    have hk0 : ¬k0 = "image" := by
      intro hk
      rw [hasKey, dget, if_pos hk] at hpre
      exact absurd hpre (by simp)
    have hpre2 : hasKey pre2 "image" = false := by
      rw [hasKey, dget, if_neg hk0] at hpre
      exact hpre
    rw [List.cons_append] at h
    simp only [genEntryPass] at h
    by_cases hdrop : dropKey cfg k0
    · rw [if_pos hdrop] at h
      exact ih post d base hpre2 hkeep hhref h
    · rw [if_neg hdrop] at h
      by_cases hdate : dateKeys.contains k0
      · rw [if_pos hdate] at h
        cases hrest : genEntryPass cfg ext (pre2 ++ ("image", .vdict d) :: post) with
        | error u => rw [hrest] at h; exact absurd h (by simp [Except.map])
        | ok r =>
          rw [hrest] at h
          simp only [Except.map] at h
          cases h
          rw [dget, if_neg hk0]
          exact ih post d r hpre2 hkeep hhref hrest
      · rw [if_neg hdate] at h
        rw [if_neg hk0] at h
        by_cases hscal : isScalar v0
        · rw [if_pos hscal] at h
          cases hrest : genEntryPass cfg ext (pre2 ++ ("image", .vdict d) :: post) with
          | error u => rw [hrest] at h; exact absurd h (by simp [Except.map])
          | ok r =>
            rw [hrest] at h
            simp only [Except.map] at h
            cases h
            rw [dget, if_neg hk0]
            exact ih post d r hpre2 hkeep hhref hrest
        · rw [if_neg hscal] at h
          exact ih post d base hpre2 hkeep hhref h

theorem stepImage_of_hasKey (cfg : Config) (e base : List (String × FValue))
    (h : hasKey base "image" = true) : stepImage cfg e base = .ok base := by
  unfold stepImage
  rw [h]
  simp

/-- Claim C10: when an entry's kept `image` key maps to a structure with
no `href` field, the produced record binds `image` to Python `None` (not
a string), and none of the image fallback probes contribute — the key
being present suppresses the derivation, whatever media content the entry
carries. -/
theorem C10_image_null (cfg : Config) (ext : Ext)
    (pre post d rec : List (String × FValue))
    (hpre : hasKey pre "image" = false)
    (hkeep : dropKey cfg "image" = false)
    (hhref : dget d "href" = none)
    (h : genEntry cfg ext (pre ++ ("image", .vdict d) :: post) = .ok rec) :
    dget rec "image" = some .vnone := by
  obtain ⟨b0, b1, b2, b3, h0, h1, h2, h3, h4⟩ :=
    genEntry_ok_chain cfg ext (pre ++ ("image", .vdict d) :: post) rec h
  have d0 : dget b0 "image" = some .vnone :=
    genEntryPass_image_vnone cfg ext pre post d b0 hpre hkeep hhref h0
  have hk0 : hasKey b0 "image" = true := by rw [hasKey, d0]; rfl
  rw [stepImage_of_hasKey cfg _ b0 hk0] at h1
  cases h1
  rw [stepSummary_dget_ne cfg b3 rec "image" h4 (by decide),
    stepLink_dget_ne cfg _ b2 b3 "image" h3 (by decide),
    stepAudio_dget_ne cfg _ b0 b2 "image" h2 (by decide)]
  exact d0

/-- An entry with an `href`-less image structure *and* media content that
would yield `a.jpg` if the probes ran. -/
def entryImageNoHref : List (String × FValue) :=
  [("image", .vdict [("url", .vstr "u")]),
   ("media_content", .vlist [.vdict [("url", .vstr "a.jpg"), ("medium", .vstr "image")]])]

/-- Witness for C10: on `entryImageNoHref` the record's `image` is `None`,
not the probe result `a.jpg`. -/
theorem C10_image_null_witness :
    dget [("image", FValue.vnone)] "image" = some FValue.vnone :=
  C10_image_null cfgDefault extFixed []
    [("media_content", .vlist [.vdict [("url", .vstr "a.jpg"), ("medium", .vstr "image")]])]
    [("url", .vstr "u")] [("image", FValue.vnone)] rfl rfl rfl rfl

/-!
## Claim C5 — the date-parsing policy
-/

/-- Claim C5: date parsing is total and follows the documented chain.
Conjuncts: (1) the result is always timezone-aware, whatever the input
value; (2) when RFC-822 parsing succeeds the result does not depend on
the flexible parser or the clock; (3) when only the flexible parser
succeeds the result does not depend on the clock; (4) when both fail the
result is the current time (`dt.utcnow()` is aware UTC) converted per the
local-time flag; (5) a parse without timezone info is assumed UTC; (6) a
kept `published` field is stored as `strftime` of the parsed date, so an
unparsable string yields the formatted current time. -/
theorem C5_date_policy (ext : Ext) (cfg : Config) (s : String) (d : PyDt) :
    (∀ v, (parse_date ext cfg.local_time v).tz.isSome = true) ∧
    (ext.rfc s = some d → ∀ g n,
      parse_date { ext with flex := g, now := n } cfg.local_time (.vstr s) =
        parse_date ext cfg.local_time (.vstr s)) ∧
    (ext.rfc s = none → ext.flex s = some d → ∀ n,
      parse_date { ext with now := n } cfg.local_time (.vstr s) =
        parse_date ext cfg.local_time (.vstr s)) ∧
    (ext.rfc s = none → ext.flex s = none →
      ext.now.tz = some { offset := 0, name := some "UTC" } →
      ((cfg.local_time = false → parse_date ext cfg.local_time (.vstr s) =
          { wall := ext.now.wall, tz := some { offset := 0, name := some "UTC" } }) ∧
        (cfg.local_time = true → parse_date ext cfg.local_time (.vstr s) =
          { wall := ext.now.wall + ext.localOffset,
            tz := some { offset := ext.localOffset, name := some ext.localName } }))) ∧
    (ext.rfc s = some d → d.tz = none → cfg.local_time = false →
      parse_date ext cfg.local_time (.vstr s) =
        { wall := d.wall, tz := some { offset := 0, name := some "UTC" } }) ∧
    (dropKey cfg "published" = false →
      genEntryPass cfg ext [("published", .vstr s)] =
        .ok [("published",
          .vstr (ext.strftime (parse_date ext cfg.local_time (.vstr s))
            cfg.date_format))]) := by
  refine ⟨?_, ?_, ?_, ?_, ?_, ?_⟩
  · intro v
    cases h : cfg.local_time <;>
      simp [parse_date, h, dt_as_local, dt_as_utc]
  · intro hrfc g n
    simp [parse_date, hrfc]
  · intro hrfc hflex n
    simp [parse_date, hrfc, hflex]
  · intro hrfc hflex hnow
    constructor
    · intro hlt
      simp [parse_date, hrfc, hflex, hnow, hlt, nameFalsy, dt_as_utc]
    · intro hlt
      simp [parse_date, hrfc, hflex, hnow, hlt, nameFalsy, dt_as_local]
  · intro hrfc htz hlt
    simp [parse_date, hrfc, htz, hlt, nameFalsy, dt_as_utc]
  · intro hdrop
    have hdate : "published" ∈ dateKeys := by decide
    simp [genEntryPass, hdrop, hdate, fmtDate, Except.map]

/-- Witness for C5: the unparsable string `"nope"` under the concrete
services — the parsed date is aware, equals the converted clock value, and
the `published` field is stored formatted. -/
theorem C5_date_policy_witness :
    (parse_date extFixed cfgDefault.local_time (.vstr "nope")).tz.isSome = true ∧
    parse_date extFixed cfgDefault.local_time (.vstr "nope") =
      { wall := extFixed.now.wall, tz := some { offset := 0, name := some "UTC" } } ∧
    genEntryPass cfgDefault extFixed [("published", .vstr "nope")] =
      .ok [("published",
        .vstr (extFixed.strftime (parse_date extFixed cfgDefault.local_time (.vstr "nope"))
          cfgDefault.date_format))] :=
  ⟨(C5_date_policy extFixed cfgDefault "nope" { wall := 0, tz := none }).1 (.vstr "nope"),
    ((C5_date_policy extFixed cfgDefault "nope" { wall := 0, tz := none }).2.2.2.1
      rfl rfl rfl).1 rfl,
    (C5_date_policy extFixed cfgDefault "nope" { wall := 0, tz := none }).2.2.2.2.2 rfl⟩

/-!
## Claim C9 — channel-info shaping
-/

theorem channelPass_eq_entryPass (cfg : Config) (ext : Ext) :
    ∀ f : List (String × FValue),
      Except.ok (channelPass cfg ext f) =
        genEntryPass cfg ext (f.filter (fun kv => !(kv.1 == "image"))) := by
  intro f
  induction f with
  | nil => simp [channelPass, genEntryPass]
  | cons kv rest ih =>
    obtain ⟨k0, v0⟩ := kv
    by_cases himg : k0 = "image"
    · subst himg
      simp [channelPass, List.filter_cons, ih]
    · simp only [List.filter_cons]
      by_cases hdrop : dropKey cfg k0
      · simp [channelPass, genEntryPass, hdrop, himg, ih]
      · by_cases hdate : k0 ∈ dateKeys
        · simp [channelPass, genEntryPass, hdrop, hdate, himg, ← ih, Except.map]
        · by_cases hscal : isScalar v0
          · simp [channelPass, genEntryPass, hdrop, hdate, himg, hscal, ← ih, Except.map]
          · simp [channelPass, genEntryPass, hdrop, hdate, himg, hscal, ih]

theorem channelPass_no_image (cfg : Config) (ext : Ext) :
    ∀ f : List (String × FValue), dget (channelPass cfg ext f) "image" = none := by
  intro f
  induction f with
  | nil => simp [channelPass, dget]
  | cons kv rest ih =>
    obtain ⟨k0, v0⟩ := kv
    by_cases himg : k0 = "image"
    · subst himg
      simp [channelPass, ih]
    · by_cases hdrop : dropKey cfg k0
      · simp [channelPass, hdrop, himg, ih]
      · by_cases hdate : k0 ∈ dateKeys
        · simp [channelPass, hdrop, hdate, himg, dget, ih]
        · by_cases hscal : isScalar v0
          · simp [channelPass, hdrop, hdate, himg, hscal, dget, ih]
          · simp [channelPass, hdrop, hdate, himg, hscal, ih]

/-- Claim C9: channel-info shaping.  Conjunct (1): the generic channel
pass equals the entry pass run on the feed mapping with its `image` key
removed (same key filter, date reformatting and scalar-only retention;
`image` always dropped, and the entry pass's `href`-extraction branch
never fires on image-free input).  Conjunct (2): with `image` excluded,
the output is exactly the pass result, which holds no `image` key.
Conjuncts (3)/(4): with `image` not excluded, the derived channel image
follows the cascade explicit-image `href`, else its `url`, else the
feed's `logo`, and the key is added only when one of these is truthy. -/
theorem C9_channel_shaping (cfg : Config) (ext : Ext) (f : List (String × FValue))
    (d : List (String × FValue)) :
    (Except.ok (channelPass cfg ext f) =
      genEntryPass cfg ext (f.filter (fun kv => !(kv.1 == "image")))) ∧
    (cfg.exclusions.contains "image" = true →
      genChannel cfg ext f = .ok (channelPass cfg ext f) ∧
      dget (channelPass cfg ext f) "image" = none) ∧
    (cfg.exclusions.contains "image" = false → dget f "image" = some (.vdict d) →
      ((truthy (dgetD d "href") = true →
          genChannel cfg ext f =
            .ok (channelPass cfg ext f ++ [("image", dgetD d "href")])) ∧
        (truthy (dgetD d "href") = false → truthy (dgetD d "url") = true →
          genChannel cfg ext f =
            .ok (channelPass cfg ext f ++ [("image", dgetD d "url")])) ∧
        (truthy (dgetD d "href") = false → truthy (dgetD d "url") = false →
          truthy (dgetD f "logo") = true →
          genChannel cfg ext f =
            .ok (channelPass cfg ext f ++ [("image", dgetD f "logo")])) ∧
        (truthy (dgetD d "href") = false → truthy (dgetD d "url") = false →
          truthy (dgetD f "logo") = false →
          genChannel cfg ext f = .ok (channelPass cfg ext f)))) ∧
    (cfg.exclusions.contains "image" = false → dget f "image" = none →
      ((truthy (dgetD f "logo") = true →
          genChannel cfg ext f =
            .ok (channelPass cfg ext f ++ [("image", dgetD f "logo")])) ∧
        (truthy (dgetD f "logo") = false →
          genChannel cfg ext f = .ok (channelPass cfg ext f)))) := by
  refine ⟨channelPass_eq_entryPass cfg ext f, ?_, ?_, ?_⟩
  · intro hexc
    have hmem : "image" ∈ cfg.exclusions := by
      simpa using hexc
    exact ⟨by simp [genChannel, hmem], channelPass_no_image cfg ext f⟩
  · intro hexc himage
    have hmem : "image" ∉ cfg.exclusions := by
      simpa using hexc
    refine ⟨?_, ?_, ?_, ?_⟩
    · intro hhref
      simp [genChannel, hmem, himage, pyOr, hhref]
    · intro hhref hurl
      simp [genChannel, hmem, himage, pyOr, hhref, hurl]
    · intro hhref hurl hlogo
      simp [genChannel, hmem, himage, pyOr, hhref, hurl, hlogo]
    · intro hhref hurl hlogo
      simp [genChannel, hmem, himage, pyOr, hhref, hurl, hlogo]
  · intro hexc himage
    have hmem : "image" ∉ cfg.exclusions := by
      simpa using hexc
    have e1 : dgetD ([] : List (String × FValue)) "href" = FValue.vnone := rfl
    have e2 : dgetD ([] : List (String × FValue)) "url" = FValue.vnone := rfl
    have e3 : pyOr FValue.vnone FValue.vnone = FValue.vnone := rfl
    have e4 : truthy FValue.vnone = false := rfl
    refine ⟨?_, ?_⟩
    · intro hlogo
      simp [genChannel, hmem, himage, e1, e2, e3, e4, hlogo]
    · intro hlogo
      simp [genChannel, hmem, himage, e1, e2, e3, e4, hlogo]

/-- A concrete feed mapping with a title and an image structure. -/
def feedWithImage : List (String × FValue) :=
  [("title", .vstr "c"), ("image", .vdict [("href", .vstr "ci")])]

/-- Witness for C9: on `feedWithImage` the pass agrees with the
image-filtered entry pass, and the channel image is the explicit href. -/
theorem C9_channel_shaping_witness :
    (Except.ok (channelPass cfgDefault extFixed feedWithImage) =
      genEntryPass cfgDefault extFixed
        (feedWithImage.filter (fun kv => !(kv.1 == "image")))) ∧
    genChannel cfgDefault extFixed feedWithImage =
      .ok (channelPass cfgDefault extFixed feedWithImage ++
        [("image", dgetD [("href", FValue.vstr "ci")] "href")]) :=
  ⟨(C9_channel_shaping cfgDefault extFixed feedWithImage
      [("href", FValue.vstr "ci")]).1,
    ((C9_channel_shaping cfgDefault extFixed feedWithImage
      [("href", FValue.vstr "ci")]).2.2.1 rfl rfl).1 rfl⟩

/-!
## Claim C3 — the image probe order

The following `spec…` definitions are written from the claim's words (an
ordered cascade of four probes, first success wins), to be compared with
`process_image` as translated from the source.
-/

/-- Spec: a media-content item tagged as an image (medium `"image"` or a
type starting with `"image/"`) that carries a usable URL. -/
def specMCHit (item : FValue) : Bool :=
  match item with
  | .vdict d =>
    truthy (dgetD d "url") &&
      (isStrEq (dgetD d "medium") "image" ||
        (match pyOr (dgetD d "type") (.vstr "") with
          | .vstr s => strStartsWith s "image/"
          | _ => false))
  | _ => false

/-- Spec: the URL a media-content or thumbnail item contributes. -/
def specItemUrl (item : FValue) : FValue :=
  match item with
  | .vdict d => dgetD d "url"
  | _ => .vnone

/-- Spec: a media-thumbnail item with a URL. -/
def specThumbHit (item : FValue) : Bool :=
  match item with
  | .vdict d => truthy (dgetD d "url")
  | _ => false

/-- Spec: an enclosure item whose type starts with `"image/"` and which
carries an `href` or `url`. -/
def specEncHit (item : FValue) : Bool :=
  match item with
  | .vdict d =>
    truthy (pyOr (dgetD d "href") (dgetD d "url")) &&
      (match pyOr (dgetD d "type") (.vstr "") with
        | .vstr s => strStartsWith s "image/"
        | _ => false)
  | _ => false

/-- Spec: the URL an enclosure contributes. -/
def specEncUrl (item : FValue) : FValue :=
  match item with
  | .vdict d => pyOr (dgetD d "href") (dgetD d "url")
  | _ => .vnone

/-- The item sequence a probed value denotes (non-sequences contribute
nothing). -/
def specListOf (v : FValue) : List FValue :=
  match v with
  | .vlist l => l
  | _ => []

/-- The ordered image-derivation cascade exactly as the claim states it:
first matching media-content item, then first media-thumbnail item with a
URL, then first image-typed enclosure, then the first regex capture from
the `summary` field; `none` when every probe fails. -/
def specImageProbes (e : List (String × FValue)) : Option FValue :=
  match (specListOf (dgetD e "media_content")).find? specMCHit with
  | some item => some (specItemUrl item)
  | none =>
    match (specListOf (dgetD e "media_thumbnail")).find? specThumbHit with
    | some item => some (specItemUrl item)
    | none =>
      match (specListOf (dgetD e "enclosures")).find? specEncHit with
      | some item => some (specEncUrl item)
      | none =>
        match dget e "summary" with
        | some (.vstr s) =>
          match imgFindall s with
          | [] => none
          | u :: _ => some (.vstr u)
        | _ => none

theorem mcItem_none (item : FValue) (h : mcImageItem item = .ok none) :
    specMCHit item = false := by
  cases item with
  | vdict d =>
    simp only [mcImageItem] at h
    simp only [specMCHit]
    by_cases hurl : truthy (dgetD d "url")
    · rw [if_neg (by simp [hurl])] at h
      by_cases hmed : isStrEq (dgetD d "medium") "image"
      · rw [if_pos hmed] at h
        exact absurd h (by simp)
      · rw [if_neg hmed] at h
        simp only [hmed, Bool.false_or]
        unfold pyStartsWith at h
        cases hty : pyOr (dgetD d "type") (.vstr "") with
        | vstr s =>
          rw [hty] at h
          simp only at h
          by_cases hsw : strStartsWith s "image/"
          · rw [if_pos hsw] at h; exact absurd h (by simp)
          · simp [hurl, hty, hsw]
        | vnone => rw [hty] at h; exact absurd h (by simp)
        | vbool b => rw [hty] at h; exact absurd h (by simp)
        | vint n => rw [hty] at h; exact absurd h (by simp)
        | vlist l => rw [hty] at h; exact absurd h (by simp)
        | vdict d2 => rw [hty] at h; exact absurd h (by simp)
    · simp [hurl]
  | vnone => rfl
  | vbool b => exact absurd h (by simp [mcImageItem])
  | vint n => exact absurd h (by simp [mcImageItem])
  | vstr s => exact absurd h (by simp [mcImageItem])
  | vlist l => exact absurd h (by simp [mcImageItem])

theorem mcItem_some (item : FValue) (u : FValue)
    (h : mcImageItem item = .ok (some u)) :
    specMCHit item = true ∧ specItemUrl item = u := by
  cases item with
  | vdict d =>
    simp only [mcImageItem] at h
    simp only [specMCHit, specItemUrl]
    by_cases hurl : truthy (dgetD d "url")
    · rw [if_neg (by simp [hurl])] at h
      by_cases hmed : isStrEq (dgetD d "medium") "image"
      · rw [if_pos hmed] at h
        cases h
        simp [hurl, hmed]
      · rw [if_neg hmed] at h
        unfold pyStartsWith at h
        cases hty : pyOr (dgetD d "type") (.vstr "") with
        | vstr s =>
          rw [hty] at h
          simp only at h
          by_cases hsw : strStartsWith s "image/"
          · rw [if_pos hsw] at h
            cases h
            simp [hurl, hmed, hty, hsw]
          · rw [if_neg hsw] at h; exact absurd h (by simp)
        | vnone => rw [hty] at h; exact absurd h (by simp)
        | vbool b => rw [hty] at h; exact absurd h (by simp)
        | vint n => rw [hty] at h; exact absurd h (by simp)
        | vlist l => rw [hty] at h; exact absurd h (by simp)
        | vdict d2 => rw [hty] at h; exact absurd h (by simp)
    · rw [if_pos (by simp [hurl])] at h
      exact absurd h (by simp)
  | vnone => exact absurd h (by simp [mcImageItem])
  | vbool b => exact absurd h (by simp [mcImageItem])
  | vint n => exact absurd h (by simp [mcImageItem])
  | vstr s => exact absurd h (by simp [mcImageItem])
  | vlist l => exact absurd h (by simp [mcImageItem])

theorem thumbItem_none (item : FValue) (h : thumbItem item = .ok none) :
    specThumbHit item = false := by
  cases item with
  | vdict d =>
    simp only [thumbItem] at h
    simp only [specThumbHit]
    by_cases hurl : truthy (dgetD d "url")
    · rw [if_pos hurl] at h; exact absurd h (by simp)
    · simpa using hurl
  | vnone => rfl
  | vbool b => exact absurd h (by simp [thumbItem])
  | vint n => exact absurd h (by simp [thumbItem])
  | vstr s => exact absurd h (by simp [thumbItem])
  | vlist l => exact absurd h (by simp [thumbItem])

theorem thumbItem_some (item : FValue) (u : FValue)
    (h : thumbItem item = .ok (some u)) :
    specThumbHit item = true ∧ specItemUrl item = u := by
  cases item with
  | vdict d =>
    simp only [thumbItem] at h
    simp only [specThumbHit, specItemUrl]
    by_cases hurl : truthy (dgetD d "url")
    · rw [if_pos hurl] at h
      cases h
      exact ⟨hurl, rfl⟩
    · rw [if_neg hurl] at h; exact absurd h (by simp)
  | vnone => exact absurd h (by simp [thumbItem])
  | vbool b => exact absurd h (by simp [thumbItem])
  | vint n => exact absurd h (by simp [thumbItem])
  | vstr s => exact absurd h (by simp [thumbItem])
  | vlist l => exact absurd h (by simp [thumbItem])

theorem encItem_none (item : FValue) (h : encImageItem item = .ok none) :
    specEncHit item = false := by
  cases item with
  | vdict d =>
    simp only [encImageItem] at h
    simp only [specEncHit]
    by_cases hurl : truthy (pyOr (dgetD d "href") (dgetD d "url"))
    · rw [if_neg (by simp [hurl])] at h
      unfold pyStartsWith at h
      cases hty : pyOr (dgetD d "type") (.vstr "") with
      | vstr s =>
        rw [hty] at h
        simp only at h
        by_cases hsw : strStartsWith s "image/"
        · rw [if_pos hsw] at h; exact absurd h (by simp)
        · simp [hurl, hty, hsw]
      | vnone => rw [hty] at h; exact absurd h (by simp)
      | vbool b => rw [hty] at h; exact absurd h (by simp)
      | vint n => rw [hty] at h; exact absurd h (by simp)
      | vlist l => rw [hty] at h; exact absurd h (by simp)
      | vdict d2 => rw [hty] at h; exact absurd h (by simp)
    · simp [hurl]
  | vnone => rfl
  | vbool b => exact absurd h (by simp [encImageItem])
  | vint n => exact absurd h (by simp [encImageItem])
  | vstr s => exact absurd h (by simp [encImageItem])
  | vlist l => exact absurd h (by simp [encImageItem])

theorem encItem_some (item : FValue) (u : FValue)
    (h : encImageItem item = .ok (some u)) :
    specEncHit item = true ∧ specEncUrl item = u := by
  cases item with
  | vdict d =>
    simp only [encImageItem] at h
    simp only [specEncHit, specEncUrl]
    by_cases hurl : truthy (pyOr (dgetD d "href") (dgetD d "url"))
    · rw [if_neg (by simp [hurl])] at h
      unfold pyStartsWith at h
      cases hty : pyOr (dgetD d "type") (.vstr "") with
      | vstr s =>
        rw [hty] at h
        simp only at h
        by_cases hsw : strStartsWith s "image/"
        · rw [if_pos hsw] at h
          cases h
          simp [hurl, hty, hsw]
        · rw [if_neg hsw] at h; exact absurd h (by simp)
      | vnone => rw [hty] at h; exact absurd h (by simp)
      | vbool b => rw [hty] at h; exact absurd h (by simp)
      | vint n => rw [hty] at h; exact absurd h (by simp)
      | vlist l => rw [hty] at h; exact absurd h (by simp)
      | vdict d2 => rw [hty] at h; exact absurd h (by simp)
    · rw [if_pos (by simp [hurl])] at h
      exact absurd h (by simp)
  | vnone => exact absurd h (by simp [encImageItem])
  | vbool b => exact absurd h (by simp [encImageItem])
  | vint n => exact absurd h (by simp [encImageItem])
  | vstr s => exact absurd h (by simp [encImageItem])
  | vlist l => exact absurd h (by simp [encImageItem])

/-- Agreement of the item-scanning loop with `find?` over the spec's item
predicate, given per-item agreement. -/
theorem scan_agree (f : FValue → Except Unit (Option FValue))
    (hit : FValue → Bool) (url : FValue → FValue)
    (hnone : ∀ item, f item = .ok none → hit item = false)
    (hsome : ∀ item u, f item = .ok (some u) → hit item = true ∧ url item = u) :
    ∀ (l : List FValue) (r : Option FValue), scanItems f l = .ok r →
      (match l.find? hit with
        | some item => some (url item)
        | none => none) = r := by
  intro l
  induction l with
  | nil =>
    intro r h
    simp only [scanItems] at h
    cases h
    rfl
  | cons item rest ih =>
    intro r h
    simp only [scanItems] at h
    cases hf : f item with
    | error u => rw [hf] at h; exact absurd h (by simp)
    | ok o =>
      rw [hf] at h
      cases o with
      | some u =>
        simp only at h
        cases h
        obtain ⟨hh, hu⟩ := hsome item u hf
        simp [List.find?, hh, hu]
      | none =>
        simp only at h
        have hh := hnone item hf
        simp only [List.find?, hh]
        exact ih r h

/-- Agreement of the guarded iteration with the spec's sequence view. -/
theorem iter_agree (f : FValue → Except Unit (Option FValue))
    (hit : FValue → Bool) (url : FValue → FValue)
    (hnone : ∀ item, f item = .ok none → hit item = false)
    (hsome : ∀ item u, f item = .ok (some u) → hit item = true ∧ url item = u)
    (v : FValue) (r : Option FValue) (h : iterItems f v = .ok r) :
    (match (specListOf v).find? hit with
      | some item => some (url item)
      | none => none) = r := by
  unfold iterItems at h
  by_cases ht : truthy v
  · rw [if_neg (by simp [ht])] at h
    cases v with
    | vlist l => exact scan_agree f hit url hnone hsome l r h
    | vnone => exact absurd h (by simp)
    | vbool b => exact absurd h (by simp)
    | vint n => exact absurd h (by simp)
    | vstr s => exact absurd h (by simp)
    | vdict d => exact absurd h (by simp)
  · rw [if_pos (by simp [ht])] at h
    cases h
    cases v with
    | vlist l =>
      have : l = [] := by
        simp only [truthy] at ht
        simpa using ht
      simp [specListOf, this]
    | vnone => rfl
    | vbool b => rfl
    | vint n => rfl
    | vstr s => rfl
    | vdict d => rfl

theorem summary_agree (e : List (String × FValue)) (r : Option FValue)
    (h : summaryImage e = .ok r) :
    (match dget e "summary" with
      | some (.vstr s) =>
        match imgFindall s with
        | [] => none
        | u :: _ => some (FValue.vstr u)
      | _ => (none : Option FValue)) = r := by
  unfold summaryImage at h
  cases hs : dget e "summary" with
  | none => rw [hs] at h; cases h; rfl
  | some v =>
    rw [hs] at h
    cases v with
    | vstr s =>
      simp only at h ⊢
      cases hf : imgFindall s with
      | nil => rw [hf] at h; cases h; rfl
      | cons u us => rw [hf] at h; cases h; rfl
    | vnone => exact absurd h (by simp)
    | vbool b => exact absurd h (by simp)
    | vint n => exact absurd h (by simp)
    | vlist l => exact absurd h (by simp)
    | vdict d2 => exact absurd h (by simp)

/-- Agreement of `_process_image` with the spec cascade on every
non-raising run. -/
theorem process_image_agree (e : List (String × FValue)) (v : FValue)
    (h : process_image e = .ok v) :
    (specImageProbes e).getD FValue.vnone = v := by
  unfold process_image at h
  unfold specImageProbes
  cases h1 : iterItems mcImageItem (dgetD e "media_content") with
  | error u => rw [h1] at h; simp [orProbe] at h
  | ok o1 =>
    rw [h1] at h
    have a1 := iter_agree mcImageItem specMCHit specItemUrl mcItem_none mcItem_some
      (dgetD e "media_content") o1 h1
    cases o1 with
    | some u =>
      simp only [orProbe] at h
      cases h
      cases hf : (specListOf (dgetD e "media_content")).find? specMCHit with
      | some item =>
        rw [hf] at a1
        simp only [Option.some.injEq] at a1
        simp [hf, a1]
      | none => rw [hf] at a1; exact absurd a1 (by simp)
    | none =>
      simp only [orProbe] at h
      cases hf1 : (specListOf (dgetD e "media_content")).find? specMCHit with
      | some item => rw [hf1] at a1; exact absurd a1 (by simp)
      | none =>
        simp only [hf1]
        cases h2 : iterItems thumbItem (dgetD e "media_thumbnail") with
        | error u => rw [h2] at h; simp [orProbe] at h
        | ok o2 =>
          rw [h2] at h
          have a2 := iter_agree thumbItem specThumbHit specItemUrl thumbItem_none
            thumbItem_some (dgetD e "media_thumbnail") o2 h2
          cases o2 with
          | some u =>
            simp only [orProbe] at h
            cases h
            cases hf : (specListOf (dgetD e "media_thumbnail")).find? specThumbHit with
            | some item =>
              rw [hf] at a2
              simp only [Option.some.injEq] at a2
              simp [hf, a2]
            | none => rw [hf] at a2; exact absurd a2 (by simp)
          | none =>
            simp only [orProbe] at h
            cases hf2 : (specListOf (dgetD e "media_thumbnail")).find? specThumbHit with
            | some item => rw [hf2] at a2; exact absurd a2 (by simp)
            | none =>
              simp only [hf2]
              cases h3 : iterItems encImageItem (dgetD e "enclosures") with
              | error u => rw [h3] at h; simp [orProbe] at h
              | ok o3 =>
                rw [h3] at h
                have a3 := iter_agree encImageItem specEncHit specEncUrl encItem_none
                  encItem_some (dgetD e "enclosures") o3 h3
                cases o3 with
                | some u =>
                  simp only [orProbe] at h
                  cases h
                  cases hf : (specListOf (dgetD e "enclosures")).find? specEncHit with
                  | some item =>
                    rw [hf] at a3
                    simp only [Option.some.injEq] at a3
                    simp [hf, a3]
                  | none => rw [hf] at a3; exact absurd a3 (by simp)
                | none =>
                  simp only [orProbe] at h
                  cases hf3 : (specListOf (dgetD e "enclosures")).find? specEncHit with
                  | some item => rw [hf3] at a3; exact absurd a3 (by simp)
                  | none =>
                    simp only [hf3]
                    unfold summaryImage at h
                    cases hs : dget e "summary" with
                    | none =>
                      rw [hs] at h
                      simp only [orProbe] at h
                      cases h
                      simp
                    | some w =>
                      rw [hs] at h
                      cases w with
                      | vstr s =>
                        simp only [orProbe] at h
                        cases hf : imgFindall s with
                        | nil =>
                          rw [hf] at h
                          simp only at h
                          cases h
                          simp [hf]
                        | cons u us =>
                          rw [hf] at h
                          simp only at h
                          cases h
                          simp [hf]
                      | vnone => simp [orProbe] at h
                      | vbool b => simp [orProbe] at h
                      | vint n => simp [orProbe] at h
                      | vlist l => simp [orProbe] at h
                      | vdict d2 => simp [orProbe] at h

/-- The claim's concrete example entry. -/
def entryMedia : List (String × FValue) :=
  [("media_content", .vlist [.vdict [("url", .vstr "a.jpg"), ("medium", .vstr "image")]])]

/-- Claim C3: the derived image follows the fixed probe order.  Conjunct
(1): on every non-raising run `_process_image` returns exactly the result
of the spec cascade `specImageProbes` (media-content tagged as image,
then media-thumbnail, then image-typed enclosure, then first regex
capture from the summary; first success wins, `None` when all fail).
Conjunct (2): when `image` is neither excluded nor kept by the generic
pass, a truthy probe result becomes the record's `image` key, and if
every probe fails the key is left unset.  Conjunct (3): the claim's
concrete example — media content `[{"url": "a.jpg", "medium": "image"}]`
yields `image = "a.jpg"`. -/
theorem C3_image_probe_order (cfg : Config) (ext : Ext)
    (e base rec : List (String × FValue)) (v : FValue) :
    (process_image e = .ok v → (specImageProbes e).getD FValue.vnone = v) ∧
    (genEntryPass cfg ext e = .ok base → hasKey base "image" = false →
      cfg.exclusions.contains "image" = false → genEntry cfg ext e = .ok rec →
      ((process_image e = .ok v → truthy v = true → dget rec "image" = some v) ∧
        (process_image e = .ok .vnone → hasKey rec "image" = false))) ∧
    genEntry cfgDefault extFixed entryMedia = .ok [("image", .vstr "a.jpg")] := by
  refine ⟨process_image_agree e v, ?_, rfl⟩
  intro hpass hnk hexc h
  obtain ⟨b0, b1, b2, b3, h0, h1, h2, h3, h4⟩ := genEntry_ok_chain cfg ext e rec h
  rw [hpass] at h0
  cases h0
  have hd : dget base "image" = none := by
    rw [hasKey] at hnk
    cases hx : dget base "image" with
    | none => rfl
    | some w => rw [hx] at hnk; exact absurd hnk (by simp)
  constructor
  · intro hpi htr
    unfold stepImage at h1
    rw [hexc, hnk] at h1
    simp only [Bool.not_false, Bool.and_self, if_true] at h1
    rw [hpi] at h1
    simp only [addIfTruthy, htr, if_true] at h1
    cases h1
    rw [stepSummary_dget_ne cfg b3 rec "image" h4 (by decide),
      stepLink_dget_ne cfg e b2 b3 "image" h3 (by decide),
      stepAudio_dget_ne cfg e _ b2 "image" h2 (by decide)]
    rw [dget_append, hd]
    simp [dget]
  · intro hpi
    unfold stepImage at h1
    rw [hexc, hnk] at h1
    simp only [Bool.not_false, Bool.and_self, if_true] at h1
    rw [hpi] at h1
    have htn : truthy FValue.vnone = false := rfl
    simp only [addIfTruthy, htn, Bool.false_eq_true, if_false] at h1
    cases h1
    rw [hasKey, stepSummary_dget_ne cfg b3 rec "image" h4 (by decide),
      stepLink_dget_ne cfg e _ b3 "image" h3 (by decide),
      stepAudio_dget_ne cfg e _ _ "image" h2 (by decide), hd]
    rfl

/-- Witness for C3: on the claim's example entry, the spec cascade and
the code agree on `a.jpg`, and the record binds `image` to it. -/
theorem C3_image_probe_order_witness :
    (specImageProbes entryMedia).getD FValue.vnone = FValue.vstr "a.jpg" ∧
    dget [("image", FValue.vstr "a.jpg")] "image" = some (FValue.vstr "a.jpg") :=
  ⟨(C3_image_probe_order cfgDefault extFixed entryMedia []
      [("image", FValue.vstr "a.jpg")] (FValue.vstr "a.jpg")).1 rfl,
    ((C3_image_probe_order cfgDefault extFixed entryMedia []
      [("image", FValue.vstr "a.jpg")] (FValue.vstr "a.jpg")).2.1
      rfl rfl rfl rfl).1 rfl rfl⟩

end FeedParser
